import Mathlib

/-!
Shallow embedding of the MDAL FLO-2D driver (src/mdal/frmts/mdal_flo2d.cpp).

Conventions of the embedding:
* a C++ `double` is modelled as `FDouble := Option ℚ`, where `none` stands for NaN
  (`MDAL_NAN`, MDAL's missing value) and `some q` for an ordinary value taken exact;
* text files are modelled after tokenisation: a file is a `List (List ℚ)`, one inner
  list per line holding the whitespace-separated fields already parsed as numbers
  (all inputs exercised here have purely numeric fields); an `Option` around the file
  models its presence on disk;
* thrown `MDAL_Status` codes are modelled with `Except MdalStatus`;
* the HDF5 store is modelled as the tree of groups/datasets/attributes the driver
  touches.
-/

attribute [local semireducible] Rat.add Rat.sub Rat.mul Rat.inv

namespace Flo2D

/-- A C++ `double`: `some q` is an ordinary value (modelled exactly as a rational),
`none` is NaN, which MDAL uses as the missing value `MDAL_NAN`. -/
abbrev FDouble := Option ℚ

/-- The FLO-2D no-data sentinel, `#define FLO2D_NAN 0.0`. -/
def FLO2D_NAN : ℚ := 0

/-- The epsilon used by `getDouble`, `1e-8`. -/
def flo2dEps : ℚ := 1 / 100000000

/-- Modelled from the spec: `MDAL::equals` (defined in mdal_utils, which is not under
src/) — the spec states the decode test as "if |value - 0.0| <= 1e-8, returns missing",
so equality within eps is `|a - b| ≤ eps`. -/
def mdalEquals (a b eps : ℚ) : Bool := decide (|a - b| ≤ eps)

/-- `static double getDouble( double val )`: the sentinel decoder. NaN input compares
unequal to everything, so it falls through to the else branch and stays NaN. -/
def getDouble (val : FDouble) : FDouble :=
  match val with
  | none => none
  | some q => if mdalEquals q FLO2D_NAN flo2dEps then none else some q

/-- `static double getDouble( const std::string &val )`, after numeric parsing. -/
def getDoubleQ (q : ℚ) : FDouble := getDouble (some q)

/-- `static double toFlo2DDouble( double val )`: the sentinel encoder. -/
def toFlo2DDouble (val : FDouble) : FDouble :=
  match val with
  | none => some FLO2D_NAN
  | some q => some q

/-- Encoder returning the raw rational actually written to the store
(`toFlo2DDouble` never yields NaN). -/
def encodeQ (v : FDouble) : ℚ := (toFlo2DDouble v).getD 0

/-- The `MDAL_Status` codes thrown or reported by this driver. -/
inductive MdalStatus where
  | None
  | Err_FileNotFound
  | Err_UnknownFormat
  | Err_IncompatibleMesh
  | Err_InvalidData
  deriving DecidableEq, Repr

/-- `MDAL::DriverFlo2D::CellCenter`: cell id, planar center coordinates, and the four
cardinal neighbour ids (`conn`, 0-based with -1 for an open boundary). -/
structure CellCenter where
  id : ℕ
  x : ℚ
  y : ℚ
  conn : List ℤ
  deriving DecidableEq, Repr

instance : Inhabited CellCenter := ⟨⟨0, 0, 0, []⟩⟩

/-- `MDAL::toSizeT` on an already-parsed numeric field (integral in all inputs here). -/
def toSizeT (q : ℚ) : ℕ := q.floor.toNat

/-- `MDAL::toInt` on an already-parsed numeric field (integral in all inputs here). -/
def toIntQ (q : ℚ) : ℤ := q.floor

/-- `cells[i].conn[j]`; every cell built by the driver has a length-4 `conn`, so the
default is never reached on the driver's own data. -/
def connAt (c : CellCenter) (j : ℕ) : ℤ := c.conn.getD j (-1)

/-- `cells[idx]`; C++ indexes unchecked, the default is never reached on inputs the
driver accepts. -/
def cellAt (cells : List CellCenter) (i : ℕ) : CellCenter := cells.getD i default

/-- One line of CADPTS.DAT. The source reads the cell id from `lineParts[1]` (the x
field), not `lineParts[0]`: `cc.id = MDAL::toSizeT( lineParts[1] ) - 1`. The `- 1` is
`size_t` arithmetic; it is modelled with truncated ℕ subtraction, which differs from
the C++ wrap-around only when the field is 0, and `cc.id` is never read afterwards.
`conn.resize(4)` zero-fills. -/
def parseCADPTSLine (l : List ℚ) : Except MdalStatus CellCenter :=
  if l.length = 3 then
    Except.ok ⟨toSizeT (l.getD 1 0) - 1, l.getD 1 0, l.getD 2 0, [0, 0, 0, 0]⟩
  else
    Except.error MdalStatus.Err_UnknownFormat

/-- `MDAL::DriverFlo2D::parseCADPTSFile`: missing file throws `Err_FileNotFound`,
otherwise each line must have exactly 3 fields. -/
def parseCADPTSFile (file : Option (List (List ℚ))) : Except MdalStatus (List CellCenter) :=
  match file with
  | none => Except.error MdalStatus.Err_FileNotFound
  | some lines => lines.mapM parseCADPTSLine

/-- The four `conn` entries taken from FPLAIN fields 1..4, each converted to 0-based
(`MDAL::toInt(lineParts[j+1]) - 1`). -/
def setConns (l : List ℚ) : List ℤ :=
  [toIntQ (l.getD 1 0) - 1, toIntQ (l.getD 2 0) - 1, toIntQ (l.getD 3 0) - 1,
   toIntQ (l.getD 4 0) - 1]

/-- `cells[cc_i].conn[j] = ...` for j < 4; a `cc_i` outside the cells vector is
undefined behaviour in C++ and modelled as a no-op. -/
def updateConn (cells : List CellCenter) (ci : ℕ) (l : List ℚ) : List CellCenter :=
  match cells.get? ci with
  | none => cells
  | some c => cells.set ci { c with conn := setConns l }

/-- The loop of `MDAL::DriverFlo2D::parseFPLAINFile`: 7 fields per record, field 0 the
1-based cell id, fields 1-4 the neighbours, field 6 the bed elevation appended in
record order. -/
def parseFPLAINGo (lines : List (List ℚ)) (cells : List CellCenter) (elev : List ℚ) :
    Except MdalStatus (List CellCenter × List ℚ) :=
  match lines with
  | [] => Except.ok (cells, elev)
  | l :: ls =>
    if l.length = 7 then
      parseFPLAINGo ls (updateConn cells (toSizeT (l.getD 0 0) - 1) l) (elev ++ [l.getD 6 0])
    else
      Except.error MdalStatus.Err_UnknownFormat

/-- `MDAL::DriverFlo2D::parseFPLAINFile`. -/
def parseFPLAINFile (file : Option (List (List ℚ))) (cells : List CellCenter) :
    Except MdalStatus (List CellCenter × List ℚ) :=
  match file with
  | none => Except.error MdalStatus.Err_FileNotFound
  | some lines => parseFPLAINGo lines cells []

/-- The inner `for (j = 0; j < 4; ++j)` loop of `calcCellSize`. The source reads
`cells[i].conn[0]` on every iteration (not `conn[j]`), so the loop can only ever fire
on slot 0, and then fires at `j = 0` with the vertical branch. -/
def calcCellSizeCell (cells : List CellCenter) (c : CellCenter) : Option ℚ :=
  (List.range 4).findSome? (fun j =>
    let idx := connAt c 0
    if idx > -1 then
      some (if j = 0 ∨ j = 2 then |(cellAt cells idx.toNat).y - c.y|
            else |(cellAt cells idx.toNat).x - c.x|)
    else none)

/-- `MDAL::DriverFlo2D::calcCellSize`: scan cells in order, throw
`Err_IncompatibleMesh` if no cell fires. -/
def calcCellSize (cells : List CellCenter) : Except MdalStatus ℚ :=
  match cells.findSome? (calcCellSizeCell cells) with
  | some v => Except.ok v
  | none => Except.error MdalStatus.Err_IncompatibleMesh

/-- The cell-size computation as claim C2 words it (refinement comparison only): the
first cell with ANY non-boundary slot fires, the triggering slot picks the neighbour
and the axis (vertical for north/south, horizontal for east/west). -/
def calcCellSizeClaimed (cells : List CellCenter) : Except MdalStatus ℚ :=
  match cells.findSome? (fun c =>
    (List.range 4).findSome? (fun j =>
      let idx := connAt c j
      if idx > -1 then
        some (if j = 0 ∨ j = 2 then |(cellAt cells idx.toNat).y - c.y|
              else |(cellAt cells idx.toNat).x - c.x|)
      else none)) with
  | some v => Except.ok v
  | none => Except.error MdalStatus.Err_IncompatibleMesh

/-- `MDAL::Vertex` as used by this driver: a planar point. -/
structure Vertex where
  x : ℚ
  y : ℚ
  deriving DecidableEq, Repr

/-- The ordering key of `VertexCompare`: `x * 1000000 + y * 1000`. Two vertices are
identified by `std::map` exactly when their keys compare equal. -/
def vertexKey (v : Vertex) : ℚ := v.x * 1000000 + v.y * 1000

/-- `MDAL::DriverFlo2D::createVertex`: the four corner points of a square cell, offset
`±half_cell_size` from the center in the order (+x,-y), (+x,+y), (-x,+y), (-x,-y);
the C++ switch leaves the center unchanged for any other position. -/
def createVertex (position : ℕ) (halfSize : ℚ) (cell : CellCenter) : Vertex :=
  match position with
  | 0 => ⟨cell.x + halfSize, cell.y - halfSize⟩
  | 1 => ⟨cell.x + halfSize, cell.y + halfSize⟩
  | 2 => ⟨cell.x - halfSize, cell.y + halfSize⟩
  | 3 => ⟨cell.x - halfSize, cell.y - halfSize⟩
  | _ => ⟨cell.x, cell.y⟩

/-- The mutable state of `createMesh`: the `unique_vertices` map (an association list
from ordering key to vertex index, in insertion order), the vertex list and the face
list. The C++ `vertex_idx` counter always equals `verts.length`. -/
structure MeshAcc where
  uniq : List (ℚ × ℕ)
  verts : List Vertex
  faces : List (List ℕ)
  deriving DecidableEq, Repr

/-- One iteration of the inner `position` loop of `createMesh`: look the corner up in
`unique_vertices`; on a miss insert it with the next index and push the vertex. The
second component accumulates the face entries. -/
def addCorner (halfSize : ℚ) (cell : CellCenter) (p : MeshAcc × List ℕ) (position : ℕ) :
    MeshAcc × List ℕ :=
  let n := createVertex position halfSize cell
  match p.1.uniq.lookup (vertexKey n) with
  | some idx => (p.1, p.2 ++ [idx])
  | none =>
      ({ uniq := p.1.uniq ++ [(vertexKey n, p.1.verts.length)],
         verts := p.1.verts ++ [n],
         faces := p.1.faces }, p.2 ++ [p.1.verts.length])

/-- One iteration of the outer cell loop of `createMesh`: build the 4-entry face and
push it. -/
def addCell (halfSize : ℚ) (acc : MeshAcc) (cell : CellCenter) : MeshAcc :=
  let r := (List.range 4).foldl (addCorner halfSize cell) (acc, [])
  { r.1 with faces := r.1.faces ++ [r.2] }

/-- `MDAL::DriverFlo2D::createMesh` (the connectivity/deduplication part; extent and
the MemoryMesh wrapper carry no further information used by the claims). -/
def createMesh (cells : List CellCenter) (halfSize : ℚ) : MeshAcc :=
  cells.foldl (addCell halfSize) ⟨[], [], []⟩

/-- The stream of corner ordering keys, in the exact order `createMesh` processes
corners. -/
def cornerKeys (cells : List CellCenter) (halfSize : ℚ) : List ℚ :=
  cells.flatMap (fun c => (List.range 4).map (fun p => vertexKey (createVertex p halfSize c)))

/-- Specification-side view of the key stream: the keys in order of first occurrence
(the insertion order of `unique_vertices`). -/
def foldFirst (seen : List ℚ) (ks : List ℚ) : List ℚ :=
  ks.foldl (fun acc k => if k ∈ acc then acc else acc ++ [k]) seen

/-- First-occurrence deduplication of a key stream. -/
def firstOccs (ks : List ℚ) : List ℚ := foldFirst [] ks

/-- Keys paired with consecutive indices starting at `start` — the shape of the
`unique_vertices` association list. -/
def withIdx (start : ℕ) : List ℚ → List (ℚ × ℕ)
  | [] => []
  | k :: ks => (k, start) :: withIdx (start + 1) ks

/-- Index of the first occurrence of a key in a key list (0 if absent past the end). -/
def keyIndex (k : ℚ) : List ℚ → ℕ
  | [] => 0
  | a :: l => if a = k then 0 else keyIndex k l + 1

/-- Key-stream view of the deduplication loop: thread the map through the stream and
emit one vertex index per key. -/
def buildEntries (uniq : List (ℚ × ℕ)) : List ℚ → List (ℚ × ℕ) × List ℕ
  | [] => (uniq, [])
  | k :: ks =>
    match uniq.lookup k with
    | some idx => let r := buildEntries uniq ks; (r.1, idx :: r.2)
    | none => let r := buildEntries (uniq ++ [(k, uniq.length)]) ks; (r.1, uniq.length :: r.2)

/-- `MDAL::MemoryDataset`, reduced to what the driver reads and writes: the time of
the slice and its dense value buffer (vector data interleaved x/y as in the source).
Modelled from the spec: the buffer is sized `facesCount` (scalar) or `2*facesCount`
(vector) and a fresh `std::vector<double>` buffer is zero-initialised (the memory data
model is not under src/). -/
structure MemDataset where
  time : ℚ
  vals : List FDouble
  deriving DecidableEq, Repr

/-- `MDAL::DatasetGroup`, reduced to what the driver sets: name, location, scalar
flag, member datasets. -/
structure DatasetGroup where
  name : String
  isOnVertices : Bool
  isScalar : Bool
  datasets : List MemDataset
  deriving DecidableEq, Repr

/-- Placeholder group for total functions; never produced by the embedded driver. -/
def defaultGroup : DatasetGroup := ⟨"", false, false, []⟩

/-- `MDAL::DriverFlo2D::addStaticDataset`: a face-associated scalar group with a
single time-0 dataset holding `vals` verbatim. -/
def staticGroup (groupName : String) (vals : List FDouble) : DatasetGroup :=
  ⟨groupName, false, true, [⟨0, vals⟩]⟩

/-- `addDatasetToGroup`: push the dataset only when its buffer is non-empty
(`dataset->valuesCount() > 0`). -/
def pushDataset (ds : List MemDataset) (d : MemDataset) : List MemDataset :=
  if d.vals.length > 0 then ds ++ [d] else ds

/-- The per-slice working state of `parseTIMDEPFile`: the three in-progress dataset
buffers sharing the slice time. `none` means no time marker has been seen yet, so the
three `shared_ptr`s are still null. -/
structure TimdepBufs where
  time : ℚ
  depth : List FDouble
  flow : List FDouble
  wl : List FDouble
  deriving DecidableEq, Repr

/-- The loop state of `parseTIMDEPFile`. -/
structure TimdepAcc where
  cur : Option TimdepBufs
  faceIdx : ℕ
  depthDs : List MemDataset
  flowDs : List MemDataset
  wlDs : List MemDataset
  deriving DecidableEq, Repr

/-- Flush the in-progress slice into the three groups (the `addDatasetToGroup` calls
guarded by the null checks). -/
def timdepFlush (acc : TimdepAcc) : TimdepAcc :=
  match acc.cur with
  | none => acc
  | some b =>
    { acc with
      depthDs := pushDataset acc.depthDs ⟨b.time, b.depth⟩,
      flowDs := pushDataset acc.flowDs ⟨b.time, b.flow⟩,
      wlDs := pushDataset acc.wlDs ⟨b.time, b.wl⟩ }

/-- One line of TIMDEP.OUT. A 1-field line is a time marker: flush, then allocate
fresh zero-initialised buffers and reset `face_idx`. A 5- or 6-field line is a
per-face record: the source guards with `face_idx == nVertexs` (the VERTEX count,
line 187/253 of the source) and then writes at `face_idx` into the faces-sized
buffers — an out-of-bounds write in C++ when `face_idx ≥ facesCount`, modelled by
`List.set`'s out-of-range no-op. Any other field count throws. -/
def timdepStep (nVerts nFaces : ℕ) (elev : List ℚ) (acc : TimdepAcc) (l : List ℚ) :
    Except MdalStatus TimdepAcc :=
  if l.length = 1 then
    let acc := timdepFlush acc
    Except.ok
      { acc with
        cur := some ⟨l.getD 0 0, List.replicate nFaces (some 0),
                     List.replicate (2 * nFaces) (some 0), List.replicate nFaces (some 0)⟩,
        faceIdx := 0 }
  else if l.length = 5 ∨ l.length = 6 then
    match acc.cur with
    | none => Except.error MdalStatus.Err_UnknownFormat
    | some b =>
      if acc.faceIdx = nVerts then Except.error MdalStatus.Err_IncompatibleMesh
      else
        let d := getDoubleQ (l.getD 1 0)
        let wlv : FDouble :=
          match d with
          | none => none
          | some dv => some (dv + elev.getD acc.faceIdx 0)
        Except.ok
          { acc with
            cur := some ⟨b.time,
                         b.depth.set acc.faceIdx d,
                         (b.flow.set (2 * acc.faceIdx) (getDoubleQ (l.getD 3 0))).set
                           (2 * acc.faceIdx + 1) (getDoubleQ (l.getD 4 0)),
                         b.wl.set acc.faceIdx wlv⟩,
            faceIdx := acc.faceIdx + 1 }
  else Except.error MdalStatus.Err_UnknownFormat

/-- The getline loop of `parseTIMDEPFile`. -/
def parseTIMDEPGo (nVerts nFaces : ℕ) (elev : List ℚ) (acc : TimdepAcc) :
    List (List ℚ) → Except MdalStatus TimdepAcc
  | [] => Except.ok acc
  | l :: ls =>
    match timdepStep nVerts nFaces elev acc l with
    | Except.error e => Except.error e
    | Except.ok acc' => parseTIMDEPGo nVerts nFaces elev acc' ls

/-- `MDAL::DriverFlo2D::parseTIMDEPFile`: an absent file contributes nothing; a
present file is parsed, the last slice flushed, and the three groups Depth (scalar),
Velocity (vector) and Water Level (scalar) are pushed unconditionally. -/
def parseTIMDEPFile (nVerts nFaces : ℕ) (elev : List ℚ) (file : Option (List (List ℚ))) :
    Except MdalStatus (List DatasetGroup) :=
  match file with
  | none => Except.ok []
  | some lines =>
    match parseTIMDEPGo nVerts nFaces elev ⟨none, 0, [], [], []⟩ lines with
    | Except.error e => Except.error e
    | Except.ok acc =>
      let acc := timdepFlush acc
      Except.ok [⟨"Depth", false, true, acc.depthDs⟩,
                 ⟨"Velocity", false, false, acc.flowDs⟩,
                 ⟨"Water Level", false, true, acc.wlDs⟩]

/-- The getline loop of `parseDEPTHFile`: the index bound is checked before the field
count, extra lines beyond `facesCount` throw `Err_IncompatibleMesh`, any non-4-field
line throws `Err_UnknownFormat`. -/
def parseDEPTHGo (nFaces : ℕ) (elev : List ℚ) :
    List (List ℚ) → ℕ → List FDouble → List FDouble →
    Except MdalStatus (List FDouble × List FDouble)
  | [], _, maxDepth, maxWL => Except.ok (maxDepth, maxWL)
  | l :: ls, idx, maxDepth, maxWL =>
    if idx = nFaces then Except.error MdalStatus.Err_IncompatibleMesh
    else if l.length = 4 then
      let v := getDoubleQ (l.getD 3 0)
      let wl : FDouble :=
        match v with
        | none => none
        | some q => some (q + elev.getD idx 0)
      parseDEPTHGo nFaces elev ls (idx + 1) (maxDepth.set idx v) (maxWL.set idx wl)
    else Except.error MdalStatus.Err_UnknownFormat

/-- `MDAL::DriverFlo2D::parseDEPTHFile`: optional file producing the two static
maxima groups. -/
def parseDEPTHFile (nFaces : ℕ) (elev : List ℚ) (file : Option (List (List ℚ))) :
    Except MdalStatus (List DatasetGroup) :=
  match file with
  | none => Except.ok []
  | some lines =>
    match parseDEPTHGo nFaces elev lines 0 (List.replicate nFaces (some 0))
        (List.replicate nFaces (some 0)) with
    | Except.error e => Except.error e
    | Except.ok (maxDepth, maxWL) =>
      Except.ok [staticGroup "Depth/Maximums" maxDepth,
                 staticGroup "Water Level/Maximums" maxWL]

/-- The VELFP.OUT loop: seed the buffer unconditionally (index bound first, then field
count). -/
def velfpGo (nFaces : ℕ) : List (List ℚ) → ℕ → List FDouble →
    Except MdalStatus (List FDouble)
  | [], _, buf => Except.ok buf
  | l :: ls, idx, buf =>
    if idx = nFaces then Except.error MdalStatus.Err_IncompatibleMesh
    else if l.length = 4 then
      velfpGo nFaces ls (idx + 1) (buf.set idx (getDoubleQ (l.getD 3 0)))
    else Except.error MdalStatus.Err_UnknownFormat

/-- The VELOC.OUT loop: overwrite a face's value only when the channel value decodes
to non-missing (`if (!std::isnan(val))`). -/
def velocGo (nFaces : ℕ) : List (List ℚ) → ℕ → List FDouble →
    Except MdalStatus (List FDouble)
  | [], _, buf => Except.ok buf
  | l :: ls, idx, buf =>
    if idx = nFaces then Except.error MdalStatus.Err_IncompatibleMesh
    else if l.length = 4 then
      let v := getDoubleQ (l.getD 3 0)
      velocGo nFaces ls (idx + 1) (if v ≠ none then buf.set idx v else buf)
    else Except.error MdalStatus.Err_UnknownFormat

/-- Specification-side view of the VELFP loop: write each record's decoded fourth
field at consecutive indices. -/
def fpApply : List (List ℚ) → ℕ → List FDouble → List FDouble
  | [], _, buf => buf
  | l :: ls, idx, buf => fpApply ls (idx + 1) (buf.set idx (getDoubleQ (l.getD 3 0)))

/-- Specification-side view of the VELOC loop: overwrite only where the decoded value
is non-missing. -/
def chApply : List (List ℚ) → ℕ → List FDouble → List FDouble
  | [], _, buf => buf
  | l :: ls, idx, buf =>
    chApply ls (idx + 1)
      (if getDoubleQ (l.getD 3 0) ≠ none then buf.set idx (getDoubleQ (l.getD 3 0)) else buf)

/-- `MDAL::DriverFlo2D::parseVELFPVELOCFile`. Note the control flow of the source:
an absent VELFP.OUT returns with no group, and an absent VELOC.OUT ALSO returns from
the whole function before `addStaticDataset`, so the group is produced only when both
files are present. -/
def parseVELFPVELOCFile (nFaces : ℕ) (velfp veloc : Option (List (List ℚ))) :
    Except MdalStatus (Option DatasetGroup) :=
  match velfp with
  | none => Except.ok none
  | some l1 =>
    match velfpGo nFaces l1 0 (List.replicate nFaces (some 0)) with
    | Except.error e => Except.error e
    | Except.ok buf =>
      match veloc with
      | none => Except.ok none
      | some l2 =>
        match velocGo nFaces l2 0 buf with
        | Except.error e => Except.error e
        | Except.ok buf2 => Except.ok (some (staticGroup "Velocity/Maximums" buf2))

/-- `MDAL::DriverFlo2D::parseOUTDatasets`: the three text readers in order. -/
def parseOUTDatasets (timdep depthOut velfp veloc : Option (List (List ℚ)))
    (nVerts nFaces : ℕ) (elev : List ℚ) : Except MdalStatus (List DatasetGroup) :=
  match parseTIMDEPFile nVerts nFaces elev timdep with
  | Except.error e => Except.error e
  | Except.ok g1 =>
    match parseDEPTHFile nFaces elev depthOut with
    | Except.error e => Except.error e
    | Except.ok g2 =>
      match parseVELFPVELOCFile nFaces velfp veloc with
      | Except.error e => Except.error e
      | Except.ok g3 =>
        Except.ok (g1 ++ g2 ++ (match g3 with | some g => [g] | none => []))

/-- One sub-group of the results group of the binary store, reduced to the three
children the reader touches: the `Grouptype` attribute, the `Times` dataset and the
`Values` dataset (`none` = absent). -/
structure HdfSub where
  grouptype : Option String
  times : Option (List ℚ)
  vals : Option (List ℚ)
  deriving DecidableEq, Repr

/-- The binary store: validity of the opened file and the
"TIMDEP NETCDF OUTPUT RESULTS" group's named sub-groups (in listing order), `none`
when the results group is absent. -/
structure HdfStore where
  valid : Bool
  results : Option (List (String × HdfSub))
  deriving DecidableEq, Repr

/-- Substring test on character lists. -/
def containsSub (needle : List Char) : List Char → Bool
  | [] => decide (needle = [])
  | c :: rest => needle.isPrefixOf (c :: rest) || containsSub needle rest

/-- Modelled from the spec: `MDAL::contains(s, "vector", CaseInsensitive)`
(mdal_utils is not under src/) — the sub-group is a vector group when its type
attribute contains "vector" case-insensitively. -/
def containsCI (needle hay : String) : Bool :=
  containsSub (needle.data.map Char.toLower) (hay.data.map Char.toLower)

/-- The scalar per-timestep buffer filled by `parseHDF5Datasets`:
`values[ts * nFaces + i]` decoded, for i < nFaces. -/
def hdfScalarRow (nFaces ts : ℕ) (vals : List ℚ) : List FDouble :=
  (List.range nFaces).map (fun i => getDoubleQ (vals.getD (ts * nFaces + i) 0))

/-- The vector per-timestep buffer: pairs `values[2*(ts*nFaces+i)]`,
`values[2*(ts*nFaces+i)+1]` decoded and stored interleaved. -/
def hdfVectorRow (nFaces ts : ℕ) (vals : List ℚ) : List FDouble :=
  (List.range nFaces).flatMap (fun i =>
    [getDoubleQ (vals.getD (2 * (ts * nFaces + i)) 0),
     getDoubleQ (vals.getD (2 * (ts * nFaces + i) + 1) 0)])

/-- Translate one valid sub-group into its DatasetGroup; `none` marks any of the
failure triggers (absent type attribute, absent Times, absent Values, element-count
mismatch). -/
def translateSub (nFaces : ℕ) (nm : String) (sub : HdfSub) : Option DatasetGroup :=
  match sub.grouptype with
  | none => none
  | some gt =>
    match sub.times with
    | none => none
    | some times =>
      match sub.vals with
      | none => none
      | some vals =>
        let isVector := containsCI "vector" gt
        let expected := nFaces * times.length * (if isVector then 2 else 1)
        if vals.length = expected then
          some ⟨nm, false, !isVector,
            (List.range times.length).foldl (fun ds ts =>
              pushDataset ds ⟨times.getD ts 0,
                if isVector then hdfVectorRow nFaces ts vals else hdfScalarRow nFaces ts vals⟩) []⟩
        else none

/-- The sub-group loop of `parseHDF5Datasets`. The source pushes each completed group
onto `mesh->datasetGroups` BEFORE examining the next sub-group and returns `true`
(= failed) from inside the loop, so groups completed before the failure stay pushed:
the boolean is the error flag, the list is what ended up on the mesh. -/
def parseHDF5Subs (nFaces : ℕ) : List (String × HdfSub) → Bool × List DatasetGroup
  | [] => (false, [])
  | (nm, sub) :: rest =>
    match translateSub nFaces nm sub with
    | none => (true, [])
    | some g =>
      let r := parseHDF5Subs nFaces rest
      (r.1, g :: r.2)

/-- `MDAL::DriverFlo2D::parseHDF5Datasets` ("return true on error"): absent file,
invalid file or absent results group fail with nothing pushed. -/
def parseHDF5Datasets (store : Option HdfStore) (nFaces : ℕ) : Bool × List DatasetGroup :=
  match store with
  | none => (true, [])
  | some st =>
    if st.valid then
      match st.results with
      | none => (true, [])
      | some subs => parseHDF5Subs nFaces subs
    else (true, [])

/-- The driver input for one `load` call: the two mandatory geometry files, the
optional binary store, and the four optional text results files. -/
structure LoadInput where
  cadpts : Option (List (List ℚ))
  fplain : Option (List (List ℚ))
  hdf5 : Option HdfStore
  timdep : Option (List (List ℚ))
  depthOut : Option (List (List ℚ))
  velfp : Option (List (List ℚ))
  veloc : Option (List (List ℚ))
  deriving Repr

/-- What `load` returns: the reconstructed mesh and the ordered dataset-group
collection. -/
structure LoadResult where
  mesh : MeshAcc
  groups : List DatasetGroup
  deriving DecidableEq, Repr

/-- `MDAL::DriverFlo2D::load( resultsFile, status )`: geometry first (mandatory,
all-or-nothing), then the Bed Elevation static group, then the binary store; on any
binary failure the text readers run. -/
def load (inp : LoadInput) : Except MdalStatus LoadResult :=
  match parseCADPTSFile inp.cadpts with
  | Except.error e => Except.error e
  | Except.ok cells =>
    match parseFPLAINFile inp.fplain cells with
    | Except.error e => Except.error e
    | Except.ok (cells2, elev) =>
      match calcCellSize cells2 with
      | Except.error e => Except.error e
      | Except.ok cs =>
        let m := createMesh cells2 (cs / 2)
        let bed := staticGroup "Bed Elevation" (elev.map some)
        let p := parseHDF5Datasets inp.hdf5 m.faces.length
        if p.1 then
          match parseOUTDatasets inp.timdep inp.depthOut inp.velfp inp.veloc
              m.verts.length m.faces.length elev with
          | Except.error e => Except.error e
          | Except.ok tg => Except.ok ⟨m, bed :: p.2 ++ tg⟩
        else Except.ok ⟨m, bed :: p.2⟩

/-- The `times` buffer prepared by `appendGroup`: the source allocates
`std::vector<double> times( timesCount )` (all zeros) and then `push_back`s each
dataset's time, so the buffer is the zeros followed by the real times. -/
def preparedTimes (g : DatasetGroup) : List ℚ :=
  List.replicate g.datasets.length 0 ++ g.datasets.map MemDataset.time

/-- Modelled from the spec: the store's `Times` child is a 1D float64 array with one
entry per time slice (the Hdf wrapper is not under src/), so writing the prepared
buffer into the `timesCount`-element dataspace stores its first `timesCount`
entries. -/
def writtenTimes (g : DatasetGroup) : List ℚ :=
  (preparedTimes g).take g.datasets.length

/-- One row of the `values` buffer of `appendGroup`: `valCount` doubles fetched from
the dataset and sentinel-encoded (`toFlo2DDouble`). The float32 cast is modelled
exactly. -/
def writtenRow (valCount : ℕ) (d : MemDataset) : List ℚ :=
  (d.vals.take valCount).map encodeQ

/-- The full `values` buffer of `appendGroup`, rows in dataset order. -/
def writtenVals (g : DatasetGroup) (facesCount : ℕ) : List ℚ :=
  g.datasets.flatMap (writtenRow (if g.isScalar then facesCount else 2 * facesCount))

/-- `MDAL::DriverFlo2D::saveNewHDF5File` followed by `appendGroup` on the fresh
store: a vertex-associated group is rejected (`none`); otherwise the fresh results
group holds one sub-group under the group's own name (no collision is possible in a
fresh store), with the written Grouptype attribute, Times and Values children. -/
def persistFresh (g : DatasetGroup) (facesCount : ℕ) : Option HdfStore :=
  if g.isOnVertices then none
  else
    some ⟨true, some [(g.name,
      ⟨some (if g.isScalar then "DATASET SCALAR" else "DATASET VECTOR"),
       some (writtenTimes g),
       some (writtenVals g facesCount)⟩)]⟩

/-- The collision-avoidance loop of `appendGroup`, fuelled:
`int i = 0; while (pathExists(name)) name = base + "_" + std::to_string(i);`
— the counter `i` is never incremented, so every retry proposes the same candidate.
`none` means the fuel ran out with the loop still spinning. -/
def deriveNameAux (existing : List String) (base : String) (i : ℕ) :
    ℕ → String → Option String
  | 0, _ => none
  | fuel + 1, cur =>
    if cur ∈ existing then deriveNameAux existing base i fuel (base ++ "_" ++ Nat.repr i)
    else some cur

/-- The derived sub-group name `appendGroup` ends up writing under, if the loop
terminates within `fuel` iterations. -/
def deriveName (existing : List String) (base : String) (fuel : ℕ) : Option String :=
  deriveNameAux existing base 0 fuel base

instance {ε α : Type _} [DecidableEq ε] [DecidableEq α] : DecidableEq (Except ε α) := fun a b =>
  match a, b with
  | Except.error e, Except.error f => decidable_of_iff (e = f) (by simp)
  | Except.error _, Except.ok _ => isFalse (fun h => Except.noConfusion h)
  | Except.ok _, Except.error _ => isFalse (fun h => Except.noConfusion h)
  | Except.ok a, Except.ok b => decidable_of_iff (a = b) (by simp)

/-- Two vertically adjacent cells (centers (0,0) and (0,1)) as produced by the
two-cell example files; with half size 1/2 they share an edge, i.e. two corners. -/
def meshCellsEx : List CellCenter :=
  [⟨0, 0, 0, [1, -1, -1, -1]⟩, ⟨0, 0, 1, [-1, -1, 0, -1]⟩]

/-- Two-cell configuration for claim C2: cell 0 has only an east neighbour (cell 1),
cell 1 has only a west neighbour (cell 0); no cell has a north (slot 0) neighbour. -/
def c2cells : List CellCenter :=
  [⟨0, 0, 0, [-1, 1, -1, -1]⟩, ⟨1, 10, 0, [-1, -1, -1, 0]⟩]

/-- CADPTS.DAT of the two-cell example: two cells with centers (0,0) and (0,1). -/
def cadEx : List (List ℚ) := [[1, 0, 0], [2, 0, 1]]

/-- FPLAIN.DAT of the two-cell example: cell 1 has north neighbour 2, bed elevation 5;
cell 2 has south neighbour 1, bed elevation 7. -/
def fplainEx : List (List ℚ) := [[1, 2, 0, 0, 0, 1, 5], [2, 0, 0, 1, 0, 1, 7]]

/-- A binary store whose first sub-group "A" is complete and whose second sub-group
"B" lacks its Grouptype attribute. -/
def storeEx : HdfStore :=
  ⟨true, some [("A", ⟨some "DATASET SCALAR", some [0], some [4, 9]⟩),
               ("B", ⟨none, some [0], some [4, 9]⟩)]⟩

/-- Load input with the two-cell geometry and no results sources at all. -/
def inpGeomOnly : LoadInput := ⟨some cadEx, some fplainEx, none, none, none, none, none⟩

/-- Load input with the two-cell geometry and the half-broken binary store. -/
def inpBrokenStore : LoadInput :=
  ⟨some cadEx, some fplainEx, some storeEx, none, none, none, none⟩

/-- A scalar face-associated group with one time slice at time 1, for the persist
round trip of claim C3. -/
def groupC3 : DatasetGroup := ⟨"Depth", false, true, [⟨1, [some 5]⟩]⟩

/-- The mesh reconstructed from the two-cell example: 6 deduplicated vertices (the
two cells share an edge) and one quad face per cell. -/
def meshEx : MeshAcc :=
  ⟨[(499500, 0), (500500, 1), (-499500, 2), (-500500, 3), (501500, 4), (-498500, 5)],
   [⟨1/2, -1/2⟩, ⟨1/2, 1/2⟩, ⟨-1/2, 1/2⟩, ⟨-1/2, -1/2⟩, ⟨1/2, 3/2⟩, ⟨-1/2, 3/2⟩],
   [[0, 1, 2, 3], [1, 4, 5, 2]]⟩

/-- The result of loading the two-cell input with no results sources: just the Bed
Elevation group. -/
def loadResultEx : LoadResult :=
  ⟨meshEx, [⟨"Bed Elevation", false, true, [⟨0, [some 5, some 7]⟩]⟩]⟩

/-- The result of loading the two-cell input with the half-broken binary store: the
completed binary sub-group "A" stays on the mesh after the failure on "B". -/
def loadResultBroken : LoadResult :=
  ⟨meshEx, [⟨"Bed Elevation", false, true, [⟨0, [some 5, some 7]⟩]⟩,
            ⟨"A", false, true, [⟨0, [some 4, some 9]⟩]⟩]⟩

/-- C7: sentinel codec round trip — for every value with |v| > 1e-8 the decode/encode
round trip returns v unchanged; every |v| ≤ 1e-8 decodes to the missing value; and the
missing value encodes to the format-native 0.0. -/
theorem c7_sentinel_roundtrip (q : ℚ) :
    (|q| > flo2dEps → toFlo2DDouble (getDouble (some q)) = some q) ∧
    (|q| ≤ flo2dEps → getDouble (some q) = none) ∧
    toFlo2DDouble none = some FLO2D_NAN := by
  refine ⟨?_, ?_, rfl⟩
  · intro h
    have hm : mdalEquals q FLO2D_NAN flo2dEps = false := by
      simp only [mdalEquals, FLO2D_NAN, sub_zero, decide_eq_false_iff_not]
      exact not_le.mpr h
    simp [getDouble, toFlo2DDouble, hm]
  · intro h
    have hm : mdalEquals q FLO2D_NAN flo2dEps = true := by
      simp only [mdalEquals, FLO2D_NAN, sub_zero, decide_eq_true_eq]
      exact h
    simp [getDouble, hm]

/-- Witness for C7 at the concrete values v = 1 (round trip) and v = 0 (decodes to
missing). -/
theorem c7_witness :
    toFlo2DDouble (getDouble (some 1)) = some 1 ∧ getDouble (some 0) = none := by
  refine ⟨(c7_sentinel_roundtrip 1).1 ?_, (c7_sentinel_roundtrip 0).2.1 ?_⟩
  · norm_num [flo2dEps]
  · norm_num [flo2dEps]

/-- C8: the CADPTS parser throws FileNotFound for an absent file and UnknownFormat
for a non-3-field record as claimed, but the stored cell id is derived from the
SECOND field (the x coordinate): `cc.id = toSizeT(lineParts[1]) - 1`. On the record
`5 10 20` the code stores id 9 where the claim requires first field minus one = 4. -/
theorem c8_cadpts_id_from_x_field :
    parseCADPTSFile none = Except.error MdalStatus.Err_FileNotFound ∧
    parseCADPTSFile (some [[1, 2]]) = Except.error MdalStatus.Err_UnknownFormat ∧
    parseCADPTSFile (some [[5, 10, 20]]) = Except.ok [⟨9, 10, 20, [0, 0, 0, 0]⟩] ∧
    (9 : ℕ) ≠ 5 - 1 := by decide

/-- The collision loop state after the first iteration: once the candidate is
"Depth_0" and that name also exists, every further iteration proposes "Depth_0"
again (the suffix counter `i` is stuck at 0), so no amount of fuel suffices. -/
theorem deriveNameAux_stuck_on_collision (n : ℕ) :
    deriveNameAux ["Depth", "Depth_0"] "Depth" 0 n "Depth_0" = none := by
  induction n with
  | zero => rfl
  | succ k ih =>
    have harg : "Depth" ++ "_" ++ Nat.repr 0 = "Depth_0" := by decide
    rw [deriveNameAux, if_pos (by decide), harg]
    exact ih

/-- C9: the name-derivation loop of `appendGroup` does not terminate when the results
group already contains both the group's name and its first derived candidate: with
existing sub-groups "Depth" and "Depth_0" and base name "Depth", the loop keeps
proposing "Depth_0" forever (the counter `i` is never incremented), so it exhausts
any fuel. -/
theorem c9_uniqueness_loop_never_terminates (fuel : ℕ) :
    deriveName ["Depth", "Depth_0"] "Depth" fuel = none := by
  unfold deriveName
  cases fuel with
  | zero => rfl
  | succ n =>
    have harg : "Depth" ++ "_" ++ Nat.repr 0 = "Depth_0" := by decide
    rw [deriveNameAux, if_pos (by decide), harg]
    exact deriveNameAux_stuck_on_collision n

set_option maxHeartbeats 0 in
set_option maxRecDepth 40000 in
/-- C3: the persist/reload round trip loses the time values. `appendGroup` allocates
`std::vector<double> times(timesCount)` and then `push_back`s the real times behind
the zeros, so the store's Times array holds the zeros: persisting a scalar group with
a single dataset at time 1 and reloading yields a dataset at time 0 (values survive,
times do not). -/
theorem c3_roundtrip_loses_times :
    writtenTimes groupC3 = [0] ∧
    parseHDF5Datasets (persistFresh groupC3 1) 1 =
      (false, [⟨"Depth", false, true, [⟨0, [some 5]⟩]⟩]) ∧
    groupC3.datasets.map MemDataset.time = [1] := by decide

set_option maxHeartbeats 0 in
/-- C4: in the time-varying reader, a per-face record before any time marker and a
line with an unrecognised field count both throw UnknownFormat as claimed; but on a
mesh with 1 face and 4 vertices, a second per-face record inside a slice is ACCEPTED
(the guard compares `face_idx` against the vertex count 4, not the face count 1) and
performs an out-of-bounds write on the faces-sized buffers (modelled by `List.set`'s
out-of-range no-op) instead of throwing IncompatibleMesh. -/
theorem c4_slice_guard_uses_vertex_count :
    parseTIMDEPFile 4 1 [10] (some [[1, 5, 0, 2, 3]]) =
      Except.error MdalStatus.Err_UnknownFormat ∧
    parseTIMDEPFile 4 1 [10] (some [[0], [1, 2, 3]]) =
      Except.error MdalStatus.Err_UnknownFormat ∧
    parseTIMDEPFile 4 1 [10] (some [[0], [1, 5, 0, 2, 3], [2, 7, 0, 1, 1]]) =
      Except.ok [⟨"Depth", false, true, [⟨0, [some 5]⟩]⟩,
                 ⟨"Velocity", false, false, [⟨0, [some 2, some 3]⟩]⟩,
                 ⟨"Water Level", false, true, [⟨0, [some 15]⟩]⟩] := by decide

/-- C5 counterexample: VELFP.OUT is present and well-formed (one face, value 2.0) but
VELOC.OUT is absent, and the reader produces NO maximum-velocity group at all — the
source `return`s from inside the VELOC block before `addStaticDataset` — where the
claim requires a group with value 2.0. -/
theorem c5_counterexample :
    parseVELFPVELOCFile 1 (some [[1, 0, 0, 2]]) none = Except.ok none := by decide

/-- C2 counterexample: in `c2cells`, cell 0's east slot holds a non-boundary
neighbour, so the claim requires the horizontal distance 10; the code inspects only
`conn[0]` (north) in every iteration of its slot loop, finds no cell with a north
neighbour, and throws IncompatibleMesh. -/
theorem c2_counterexample :
    calcCellSize c2cells = Except.error MdalStatus.Err_IncompatibleMesh ∧
    calcCellSizeClaimed c2cells = Except.ok 10 := by decide

/-- The inner slot loop of `calcCellSize` collapses: it fires exactly on a
non-boundary slot-0 (north) neighbour, and then with the vertical branch. -/
theorem calcCellSizeCell_collapse (cells : List CellCenter) (c : CellCenter) :
    calcCellSizeCell cells c =
      if -1 < connAt c 0 then some |(cellAt cells (connAt c 0).toNat).y - c.y|
      else none := by
  by_cases h : -1 < connAt c 0
  · have hr : List.range 4 = [0, 1, 2, 3] := rfl
    simp only [calcCellSizeCell, hr, List.findSome?]
    simp [h]
  · have hr : List.range 4 = [0, 1, 2, 3] := rfl
    simp only [calcCellSizeCell, hr, List.findSome?]
    simp [h]

/-- `findSome?` of a guarded function equals `find?` followed by the payload. -/
theorem findSome?_guarded {α β : Type _} (f : α → Option β) (g : α → β) (p : α → Bool)
    (hf : ∀ a, f a = if p a then some (g a) else none) :
    ∀ l : List α, l.findSome? f = (l.find? p).map g := by
  intro l
  induction l with
  | nil => rfl
  | cons a l ih =>
    rw [List.findSome?_cons, List.find?_cons]
    by_cases h : p a <;> simp [hf, h, ih]

/-- C2 amended: `calcCellSize` scans cells in order and, for the first cell whose
SLOT-0 (north) neighbour id is non-boundary, returns the vertical distance between
that cell's center and that north neighbour's center, regardless of which other slots
hold neighbours; if no cell has a non-boundary north slot it throws
IncompatibleMesh, even when cells have east/south/west neighbours. -/
theorem c2_amended_theorem (cells : List CellCenter) :
    calcCellSize cells =
      match cells.find? (fun c => decide (-1 < connAt c 0)) with
      | some c => Except.ok |(cellAt cells (connAt c 0).toNat).y - c.y|
      | none => Except.error MdalStatus.Err_IncompatibleMesh := by
  unfold calcCellSize
  rw [findSome?_guarded (calcCellSizeCell cells)
      (fun c => |(cellAt cells (connAt c 0).toNat).y - c.y|)
      (fun c => decide (-1 < connAt c 0)) ?hg cells]
  · cases cells.find? (fun c => decide (-1 < connAt c 0)) <;> simp
  case hg =>
    intro c
    rw [calcCellSizeCell_collapse]
    by_cases h : -1 < connAt c 0 <;> simp [h]

/-- On a well-formed VELFP file that fits the face count, the VELFP loop succeeds and
equals the `fpApply` overlay. -/
theorem velfpGo_eq_fpApply (n : ℕ) :
    ∀ (L : List (List ℚ)) (idx : ℕ) (buf : List FDouble),
      (∀ l ∈ L, l.length = 4) → idx + L.length ≤ n →
      velfpGo n L idx buf = Except.ok (fpApply L idx buf) := by
  intro L
  induction L with
  | nil => intro idx buf _ _; rfl
  | cons l ls ih =>
    intro idx buf h4 hn
    have hidx : ¬ idx = n := by simp only [List.length_cons] at hn; omega
    rw [velfpGo, if_neg hidx, if_pos (h4 l (by simp)), fpApply]
    exact ih (idx + 1) _ (fun a ha => h4 a (by simp [ha]))
      (by simp only [List.length_cons] at hn; omega)

/-- On a well-formed VELOC file that fits the face count, the VELOC loop succeeds and
equals the `chApply` overlay. -/
theorem velocGo_eq_chApply (n : ℕ) :
    ∀ (L : List (List ℚ)) (idx : ℕ) (buf : List FDouble),
      (∀ l ∈ L, l.length = 4) → idx + L.length ≤ n →
      velocGo n L idx buf = Except.ok (chApply L idx buf) := by
  intro L
  induction L with
  | nil => intro idx buf _ _; rfl
  | cons l ls ih =>
    intro idx buf h4 hn
    have hidx : ¬ idx = n := by simp only [List.length_cons] at hn; omega
    rw [velocGo, if_neg hidx, if_pos (h4 l (by simp)), chApply]
    exact ih (idx + 1) _ (fun a ha => h4 a (by simp [ha]))
      (by simp only [List.length_cons] at hn; omega)

/-- `fpApply` preserves the buffer length. -/
theorem fpApply_length :
    ∀ (L : List (List ℚ)) (idx : ℕ) (buf : List FDouble),
      (fpApply L idx buf).length = buf.length := by
  intro L
  induction L with
  | nil => intro idx buf; rfl
  | cons l ls ih => intro idx buf; rw [fpApply, ih, List.length_set]

/-- `chApply` preserves the buffer length. -/
theorem chApply_length :
    ∀ (L : List (List ℚ)) (idx : ℕ) (buf : List FDouble),
      (chApply L idx buf).length = buf.length := by
  intro L
  induction L with
  | nil => intro idx buf; rfl
  | cons l ls ih =>
    intro idx buf
    rw [chApply, ih]
    by_cases h : getDoubleQ (l.getD 3 0) ≠ none
    · rw [if_pos h, List.length_set]
    · rw [if_neg h]

/-- Pointwise description of the VELFP overlay. -/
theorem fpApply_getElem? :
    ∀ (L : List (List ℚ)) (idx : ℕ) (buf : List FDouble), idx + L.length ≤ buf.length →
      ∀ i : ℕ,
        (fpApply L idx buf)[i]? =
          if idx ≤ i ∧ i < idx + L.length
          then some (getDoubleQ ((L.getD (i - idx) []).getD 3 0))
          else buf[i]? := by
  intro L
  induction L with
  | nil =>
    intro idx buf h i
    rw [fpApply, if_neg]
    simp only [List.length_nil, not_and]
    omega
  | cons l ls ih =>
    intro idx buf h i
    have hlen : idx + 1 + ls.length ≤ (buf.set idx (getDoubleQ (l.getD 3 0))).length := by
      simp only [List.length_set]
      simp only [List.length_cons] at h
      omega
    rw [fpApply, ih (idx + 1) _ hlen i]
    rcases Nat.lt_trichotomy i idx with hlt | heq | hgt
    · rw [if_neg (by omega), if_neg (by simp only [List.length_cons]; omega),
        List.getElem?_set_ne (by omega)]
    · subst heq
      rw [if_neg (by omega), if_pos (by simp only [List.length_cons]; omega),
        List.getElem?_set_self (by simp only [List.length_cons] at h; omega)]
      simp
    · have hsub : i - idx = (i - (idx + 1)) + 1 := by omega
      rw [hsub]
      simp only [List.getD_cons_succ]
      by_cases hin : i < idx + 1 + ls.length
      · rw [if_pos (by omega), if_pos (by simp only [List.length_cons]; omega)]
      · rw [if_neg (by omega), if_neg (by simp only [List.length_cons]; omega),
          List.getElem?_set_ne (by omega)]

/-- Pointwise description of the VELOC overlay: a face is overwritten exactly when it
is covered by a record whose value decodes to non-missing. -/
theorem chApply_getElem? :
    ∀ (L : List (List ℚ)) (idx : ℕ) (buf : List FDouble), idx + L.length ≤ buf.length →
      ∀ i : ℕ,
        (chApply L idx buf)[i]? =
          if idx ≤ i ∧ i < idx + L.length ∧ getDoubleQ ((L.getD (i - idx) []).getD 3 0) ≠ none
          then some (getDoubleQ ((L.getD (i - idx) []).getD 3 0))
          else buf[i]? := by
  intro L
  induction L with
  | nil =>
    intro idx buf h i
    rw [chApply, if_neg]
    simp only [List.length_nil, not_and]
    omega
  | cons l ls ih =>
    intro idx buf h i
    have hlen : ∀ b2 : List FDouble, b2.length = buf.length → idx + 1 + ls.length ≤ b2.length := by
      intro b2 hb2
      rw [hb2]
      simp only [List.length_cons] at h
      omega
    rcases Nat.lt_trichotomy i idx with hlt | heq | hgt
    · rw [chApply]
      by_cases hv : getDoubleQ (l.getD 3 0) ≠ none
      · rw [if_pos hv, ih (idx + 1) _ (hlen _ (List.length_set ..)) i,
          if_neg (fun h' => absurd h'.1 (by omega)),
          if_neg (fun h' => absurd h'.1 (by omega)),
          List.getElem?_set_ne (by omega)]
      · rw [if_neg hv, ih (idx + 1) _ (hlen _ rfl) i,
          if_neg (fun h' => absurd h'.1 (by omega)),
          if_neg (fun h' => absurd h'.1 (by omega))]
    · subst heq
      rw [chApply]
      by_cases hv : getDoubleQ (l.getD 3 0) ≠ none
      · rw [if_pos hv, ih (i + 1) _ (hlen _ (List.length_set ..)) i,
          if_neg (fun h' => absurd h'.1 (by omega)),
          List.getElem?_set_self (by simp only [List.length_cons] at h; omega)]
        simp only [Nat.sub_self, List.getD_cons_zero, List.length_cons]
        rw [if_pos ⟨le_refl i, by omega, hv⟩]
      · rw [if_neg hv, ih (i + 1) _ (hlen _ rfl) i,
          if_neg (fun h' => absurd h'.1 (by omega))]
        simp only [Nat.sub_self, List.getD_cons_zero, List.length_cons]
        rw [if_neg (fun h' => hv h'.2.2)]
    · have hsub : i - idx = (i - (idx + 1)) + 1 := by omega
      have hswap : idx + (ls.length + 1) = idx + 1 + ls.length := by omega
      rw [chApply]
      by_cases hv : getDoubleQ (l.getD 3 0) ≠ none
      · rw [if_pos hv, ih (idx + 1) _ (hlen _ (List.length_set ..)) i,
          List.getElem?_set_ne (by omega), hsub]
        simp only [List.getD_cons_succ, List.length_cons, hswap]
        exact if_congr (and_congr_left' (by omega)) rfl rfl
      · rw [if_neg hv, ih (idx + 1) _ (hlen _ rfl) i, hsub]
        simp only [List.getD_cons_succ, List.length_cons, hswap]
        exact if_congr (and_congr_left' (by omega)) rfl rfl

/-- `withIdx` has the length of its key list. -/
theorem withIdx_length (l : List ℚ) : ∀ s : ℕ, (withIdx s l).length = l.length := by
  induction l with
  | nil => intro s; rfl
  | cons a l ih => intro s; rw [withIdx, List.length_cons, List.length_cons, ih]

/-- `withIdx` distributes over append, continuing the numbering. -/
theorem withIdx_append (a b : List ℚ) :
    ∀ s : ℕ, withIdx s (a ++ b) = withIdx s a ++ withIdx (s + a.length) b := by
  induction a with
  | nil => intro s; simp [withIdx]
  | cons x l ih =>
    intro s
    rw [List.cons_append, withIdx, withIdx, ih (s + 1), List.cons_append, List.length_cons]
    have : s + 1 + l.length = s + (l.length + 1) := by omega
    rw [this]

/-- Looking a key up in `withIdx` finds the key's first-occurrence index, shifted by
the start. -/
theorem lookup_withIdx (l : List ℚ) :
    ∀ (s : ℕ) (k : ℚ),
      (withIdx s l).lookup k = if k ∈ l then some (s + keyIndex k l) else none := by
  induction l with
  | nil => intro s k; simp [withIdx]
  | cons a l ih =>
    intro s k
    rw [withIdx]
    by_cases hk : k = a
    · subst hk
      simp [List.lookup, keyIndex]
    · have hne : (k == a) = false := beq_eq_false_iff_ne.mpr hk
      have hka : ¬ a = k := fun hc => hk hc.symm
      simp only [List.lookup, hne, ih (s + 1) k, keyIndex, if_neg hka, List.mem_cons]
      by_cases hm : k ∈ l
      · rw [if_pos hm, if_pos (Or.inr hm)]
        have : s + 1 + keyIndex k l = s + (keyIndex k l + 1) := by omega
        rw [this]
      · rw [if_neg hm, if_neg (by rintro (h | h); exact hk h; exact hm h)]

/-- The first occurrence of a member key is inside the list. -/
theorem keyIndex_lt_length (k : ℚ) :
    ∀ l : List ℚ, k ∈ l → keyIndex k l < l.length := by
  intro l
  induction l with
  | nil => intro h; cases h
  | cons a l ih =>
    intro h
    rw [keyIndex]
    by_cases ha : a = k
    · rw [if_pos ha]; simp
    · rw [if_neg ha, List.length_cons]
      have hm : k ∈ l := by
        rcases List.mem_cons.mp h with h1 | h1
        · exact absurd h1.symm ha
        · exact h1
      exact Nat.succ_lt_succ (ih hm)

/-- `keyIndex` ignores a suffix when the key occurs in the prefix. -/
theorem keyIndex_append_left (k : ℚ) :
    ∀ a b : List ℚ, k ∈ a → keyIndex k (a ++ b) = keyIndex k a := by
  intro a
  induction a with
  | nil => intro b h; cases h
  | cons x l ih =>
    intro b h
    rw [List.cons_append, keyIndex, keyIndex]
    by_cases hx : x = k
    · rw [if_pos hx, if_pos hx]
    · have hm : k ∈ l := by
        rcases List.mem_cons.mp h with h1 | h1
        · exact absurd h1.symm hx
        · exact h1
      rw [if_neg hx, if_neg hx, ih b hm]

/-- `keyIndex` skips a prefix free of the key. -/
theorem keyIndex_append_right (k : ℚ) :
    ∀ a b : List ℚ, k ∉ a → keyIndex k (a ++ b) = a.length + keyIndex k b := by
  intro a
  induction a with
  | nil => intro b _; simp
  | cons x l ih =>
    intro b h
    have hx : ¬ x = k := fun hc => h (by rw [hc]; exact List.mem_cons_self ..)
    rw [List.cons_append, keyIndex, if_neg hx, ih b (fun hc => h (List.mem_cons_of_mem _ hc)),
      List.length_cons]
    omega

/-- Processing a key already seen leaves the first-occurrence list unchanged. -/
theorem foldFirst_cons_mem {k : ℚ} {seen : List ℚ} (h : k ∈ seen) (ks : List ℚ) :
    foldFirst seen (k :: ks) = foldFirst seen ks := by
  rw [foldFirst, List.foldl_cons, if_pos h]
  rfl

/-- Processing a new key appends it to the seen list. -/
theorem foldFirst_cons_not_mem {k : ℚ} {seen : List ℚ} (h : k ∉ seen) (ks : List ℚ) :
    foldFirst seen (k :: ks) = foldFirst (seen ++ [k]) ks := by
  rw [foldFirst, List.foldl_cons, if_neg h]
  rfl

/-- The seen list is a prefix of the first-occurrence list. -/
theorem foldFirst_prefix (ks : List ℚ) :
    ∀ seen : List ℚ, ∃ t : List ℚ, foldFirst seen ks = seen ++ t := by
  induction ks with
  | nil => intro seen; exact ⟨[], by simp [foldFirst]⟩
  | cons k ks ih =>
    intro seen
    by_cases h : k ∈ seen
    · rw [foldFirst_cons_mem h]
      exact ih seen
    · rw [foldFirst_cons_not_mem h]
      obtain ⟨t, ht⟩ := ih (seen ++ [k])
      exact ⟨[k] ++ t, by rw [ht, List.append_assoc]⟩

/-- First-occurrence lists of nodup seeds are nodup. -/
theorem foldFirst_nodup (ks : List ℚ) :
    ∀ seen : List ℚ, seen.Nodup → (foldFirst seen ks).Nodup := by
  induction ks with
  | nil => intro seen h; exact h
  | cons k ks ih =>
    intro seen h
    by_cases hm : k ∈ seen
    · rw [foldFirst_cons_mem hm]; exact ih seen h
    · rw [foldFirst_cons_not_mem hm]
      exact ih (seen ++ [k]) (by simp [List.nodup_append, h, hm])

/-- A key of the seed keeps its index in the first-occurrence list. -/
theorem foldFirst_keyIndex_of_mem (ks : List ℚ) {k : ℚ} {seen : List ℚ} (h : k ∈ seen) :
    keyIndex k (foldFirst seen ks) = keyIndex k seen := by
  obtain ⟨t, ht⟩ := foldFirst_prefix ks seen
  rw [ht, keyIndex_append_left k seen t h]

/-- Every seed key is in the first-occurrence list. -/
theorem mem_foldFirst_of_mem_seen (ks : List ℚ) {k : ℚ} {seen : List ℚ} (h : k ∈ seen) :
    k ∈ foldFirst seen ks := by
  obtain ⟨t, ht⟩ := foldFirst_prefix ks seen
  rw [ht]
  exact List.mem_append_left t h

/-- Every stream key is in the first-occurrence list. -/
theorem mem_foldFirst_of_mem (k : ℚ) :
    ∀ (ks seen : List ℚ), k ∈ ks → k ∈ foldFirst seen ks := by
  intro ks
  induction ks with
  | nil => intro seen h; cases h
  | cons a ks ih =>
    intro seen h
    rcases List.mem_cons.mp h with h1 | h1
    · subst h1
      by_cases hm : k ∈ seen
      · rw [foldFirst_cons_mem hm]; exact mem_foldFirst_of_mem_seen ks hm
      · rw [foldFirst_cons_not_mem hm]
        exact mem_foldFirst_of_mem_seen ks (by simp)
    · by_cases hm : a ∈ seen
      · rw [foldFirst_cons_mem hm]; exact ih seen h1
      · rw [foldFirst_cons_not_mem hm]; exact ih (seen ++ [a]) h1

/-- Unfolding `buildEntries` on a hit. -/
theorem buildEntries_cons_some {uniq : List (ℚ × ℕ)} {k : ℚ} {idx : ℕ}
    (h : uniq.lookup k = some idx) (ks : List ℚ) :
    buildEntries uniq (k :: ks) = ((buildEntries uniq ks).1, idx :: (buildEntries uniq ks).2) := by
  rw [buildEntries, h]

/-- Unfolding `buildEntries` on a miss. -/
theorem buildEntries_cons_none {uniq : List (ℚ × ℕ)} {k : ℚ}
    (h : uniq.lookup k = none) (ks : List ℚ) :
    buildEntries uniq (k :: ks) =
      ((buildEntries (uniq ++ [(k, uniq.length)]) ks).1,
        uniq.length :: (buildEntries (uniq ++ [(k, uniq.length)]) ks).2) := by
  rw [buildEntries, h]

/-- One entry is emitted per stream key. -/
theorem buildEntries_snd_length (ks : List ℚ) :
    ∀ uniq : List (ℚ × ℕ), (buildEntries uniq ks).2.length = ks.length := by
  induction ks with
  | nil => intro uniq; rfl
  | cons k ks ih =>
    intro uniq
    cases h : uniq.lookup k with
    | some idx => rw [buildEntries_cons_some h, List.length_cons, ih, List.length_cons]
    | none => rw [buildEntries_cons_none h, List.length_cons, ih, List.length_cons]

/-- `buildEntries` splits over an appended stream. -/
theorem buildEntries_append (a b : List ℚ) :
    ∀ uniq : List (ℚ × ℕ),
      buildEntries uniq (a ++ b) =
        ((buildEntries (buildEntries uniq a).1 b).1,
          (buildEntries uniq a).2 ++ (buildEntries (buildEntries uniq a).1 b).2) := by
  induction a with
  | nil => intro uniq; rfl
  | cons k ks ih =>
    intro uniq
    rw [List.cons_append]
    cases h : uniq.lookup k with
    | some idx =>
      rw [buildEntries_cons_some h, buildEntries_cons_some h, ih uniq, List.cons_append]
    | none =>
      rw [buildEntries_cons_none h, buildEntries_cons_none h, ih _, List.cons_append]

/-- The deduplication recursion, described against the spec-side first-occurrence
list: starting from the map of a nodup seen list, the final map is the map of the
full first-occurrence list, and each emitted entry is its key's index there. -/
theorem buildEntries_characterization (ks : List ℚ) :
    ∀ seen : List ℚ, seen.Nodup →
      (buildEntries (withIdx 0 seen) ks).1 = withIdx 0 (foldFirst seen ks) ∧
      (buildEntries (withIdx 0 seen) ks).2 =
        ks.map (fun k => keyIndex k (foldFirst seen ks)) := by
  induction ks with
  | nil => intro seen _; exact ⟨rfl, rfl⟩
  | cons k ks ih =>
    intro seen hnd
    by_cases hm : k ∈ seen
    · have hl : (withIdx 0 seen).lookup k = some (0 + keyIndex k seen) := by
        rw [lookup_withIdx seen 0 k, if_pos hm]
      obtain ⟨h1, h2⟩ := ih seen hnd
      rw [buildEntries_cons_some hl, foldFirst_cons_mem hm, List.map_cons, h1, h2]
      refine ⟨rfl, ?_⟩
      rw [foldFirst_keyIndex_of_mem ks hm]
      simp
    · have hl : (withIdx 0 seen).lookup k = none := by
        rw [lookup_withIdx seen 0 k, if_neg hm]
      have hlen : (withIdx 0 seen).length = seen.length := withIdx_length seen 0
      have hup : withIdx 0 seen ++ [(k, (withIdx 0 seen).length)] = withIdx 0 (seen ++ [k]) := by
        rw [withIdx_append seen [k] 0, hlen]
        simp [withIdx]
      obtain ⟨h1, h2⟩ := ih (seen ++ [k]) (by simp [List.nodup_append, hnd, hm])
      rw [buildEntries_cons_none hl, foldFirst_cons_not_mem hm, List.map_cons, hup, h1, h2]
      refine ⟨rfl, ?_⟩
      have hk : keyIndex k (foldFirst (seen ++ [k]) ks) = seen.length := by
        rw [foldFirst_keyIndex_of_mem ks (by simp), keyIndex_append_right k seen [k] hm]
        simp [keyIndex]
      rw [hk, hlen]

/-- The corner loop of `createMesh` is `buildEntries` on the cell's four corner keys:
the map evolves identically (the C++ `vertex_idx` always equals the vertex count,
which equals the map size), the face entries are appended in order, and the face list
is untouched. -/
theorem foldl_addCorner_eq (h : ℚ) (cell : CellCenter) :
    ∀ (ps : List ℕ) (acc : MeshAcc) (f : List ℕ), acc.verts.length = acc.uniq.length →
      (ps.foldl (addCorner h cell) (acc, f)).1.uniq =
          (buildEntries acc.uniq (ps.map (fun p => vertexKey (createVertex p h cell)))).1 ∧
      (ps.foldl (addCorner h cell) (acc, f)).1.verts.length =
          (ps.foldl (addCorner h cell) (acc, f)).1.uniq.length ∧
      (ps.foldl (addCorner h cell) (acc, f)).1.faces = acc.faces ∧
      (ps.foldl (addCorner h cell) (acc, f)).2 =
          f ++ (buildEntries acc.uniq (ps.map (fun p => vertexKey (createVertex p h cell)))).2 := by
  intro ps
  induction ps with
  | nil => intro acc f hlen; exact ⟨rfl, hlen, rfl, by simp [buildEntries]⟩
  | cons p ps ih =>
    intro acc f hlen
    cases hl : acc.uniq.lookup (vertexKey (createVertex p h cell)) with
    | some idx =>
      have hstep : addCorner h cell (acc, f) p = (acc, f ++ [idx]) := by
        simp only [addCorner, hl]
      rw [List.foldl_cons, hstep, List.map_cons, buildEntries_cons_some hl]
      obtain ⟨h1, h2, h3, h4⟩ := ih acc (f ++ [idx]) hlen
      exact ⟨h1, h2, h3, by rw [h4, List.append_assoc]; rfl⟩
    | none =>
      have hstep : addCorner h cell (acc, f) p =
          ({ uniq := acc.uniq ++ [(vertexKey (createVertex p h cell), acc.uniq.length)],
             verts := acc.verts ++ [createVertex p h cell],
             faces := acc.faces }, f ++ [acc.uniq.length]) := by
        simp only [addCorner, hl, hlen]
      rw [List.foldl_cons, hstep, List.map_cons, buildEntries_cons_none hl]
      obtain ⟨h1, h2, h3, h4⟩ :=
        ih { uniq := acc.uniq ++ [(vertexKey (createVertex p h cell), acc.uniq.length)],
             verts := acc.verts ++ [createVertex p h cell],
             faces := acc.faces } (f ++ [acc.uniq.length]) (by simp [hlen])
      exact ⟨h1, h2, by rw [h3], by rw [h4, List.append_assoc]; rfl⟩

/-- One cell step of `createMesh`: the map advances through the four corner keys and
exactly one face, the emitted 4-entry list, is appended. -/
theorem addCell_eq (h : ℚ) (acc : MeshAcc) (cell : CellCenter)
    (hlen : acc.verts.length = acc.uniq.length) :
    (addCell h acc cell).uniq =
        (buildEntries acc.uniq
          ((List.range 4).map (fun p => vertexKey (createVertex p h cell)))).1 ∧
    (addCell h acc cell).verts.length = (addCell h acc cell).uniq.length ∧
    (addCell h acc cell).faces =
        acc.faces ++ [(buildEntries acc.uniq
          ((List.range 4).map (fun p => vertexKey (createVertex p h cell)))).2] := by
  obtain ⟨h1, h2, h3, h4⟩ := foldl_addCorner_eq h cell (List.range 4) acc [] hlen
  refine ⟨h1, h2, ?_⟩
  show ((List.range 4).foldl (addCorner h cell) (acc, [])).1.faces ++
      [((List.range 4).foldl (addCorner h cell) (acc, [])).2] = _
  rw [h3, h4]
  rfl

/-- The whole cell fold of `createMesh` against `buildEntries` over the corner-key
stream: the map is the final deduplication map, the vertex count equals the map size,
and the appended faces are 4-entry chunks whose concatenation is the entry stream. -/
theorem createMesh_foldl (h : ℚ) :
    ∀ (cells : List CellCenter) (acc : MeshAcc), acc.verts.length = acc.uniq.length →
      (cells.foldl (addCell h) acc).uniq = (buildEntries acc.uniq (cornerKeys cells h)).1 ∧
      (cells.foldl (addCell h) acc).verts.length = (cells.foldl (addCell h) acc).uniq.length ∧
      ∃ F : List (List ℕ), (cells.foldl (addCell h) acc).faces = acc.faces ++ F ∧
        F.length = cells.length ∧ (∀ f ∈ F, f.length = 4) ∧
        F.flatten = (buildEntries acc.uniq (cornerKeys cells h)).2 := by
  intro cells
  induction cells with
  | nil =>
    intro acc hlen
    exact ⟨rfl, hlen, [], by simp, by simp, by simp, by simp [cornerKeys, buildEntries]⟩
  | cons c cs ih =>
    intro acc hlen
    rw [List.foldl_cons]
    obtain ⟨a1, a2, a3⟩ := addCell_eq h acc c hlen
    obtain ⟨h1, h2, F, hF, hFlen, hF4, hFflat⟩ := ih (addCell h acc c) a2
    have hck : cornerKeys (c :: cs) h =
        ((List.range 4).map (fun p => vertexKey (createVertex p h c))) ++ cornerKeys cs h := by
      simp [cornerKeys]
    refine ⟨?_, h2, ?_⟩
    · rw [h1, a1, hck, buildEntries_append]
    · refine ⟨(buildEntries acc.uniq
          ((List.range 4).map (fun p => vertexKey (createVertex p h c)))).2 :: F, ?_, ?_, ?_, ?_⟩
      · rw [hF, a3, List.append_assoc]
        rfl
      · simp [hFlen]
      · intro f hf
        rcases List.mem_cons.mp hf with h1' | h1'
        · rw [h1', buildEntries_snd_length]
          simp
        · exact hF4 f h1'
      · rw [List.flatten_cons, hFflat, a1, hck, buildEntries_append]

/-- `getD` through a mapped list at an in-range index. -/
theorem getD_map_lt {K : List ℚ} {f : ℚ → ℕ} {a : ℕ} (ha : a < K.length) :
    (K.map f).getD a 0 = f (K.getD a 0) := by
  unfold List.getD
  rw [List.get?_eq_getElem?, List.get?_eq_getElem?, List.getElem?_map,
    List.getElem?_eq_getElem ha]
  simp

/-- C6: for every cell list and half size, `createMesh` produces exactly one face per
cell; every face holds exactly 4 vertex indices, each valid for the vertex list; two
corners of the processing stream whose ordering keys compare equal receive the same
vertex index; and each corner's index is the position of its key's first occurrence
in the deduplicated (first-occurrence-ordered) key stream. -/
theorem c6_geometry_invariants (cells : List CellCenter) (h : ℚ) :
    (createMesh cells h).faces.length = cells.length ∧
    (∀ f ∈ (createMesh cells h).faces, f.length = 4 ∧
      ∀ i ∈ f, i < (createMesh cells h).verts.length) ∧
    (∀ a b : ℕ, a < (cornerKeys cells h).length → b < (cornerKeys cells h).length →
      (cornerKeys cells h).getD a 0 = (cornerKeys cells h).getD b 0 →
      (createMesh cells h).faces.flatten.getD a 0 =
        (createMesh cells h).faces.flatten.getD b 0) ∧
    (∀ a : ℕ, a < (cornerKeys cells h).length →
      (createMesh cells h).faces.flatten.getD a 0 =
        keyIndex ((cornerKeys cells h).getD a 0) (firstOccs (cornerKeys cells h))) := by
  obtain ⟨h1, h2, F, hF, hFlen, hF4, hFflat⟩ :=
    createMesh_foldl h cells ⟨[], [], []⟩ rfl
  obtain ⟨b1, b2⟩ := buildEntries_characterization (cornerKeys cells h) [] List.nodup_nil
  have hfaces : (createMesh cells h).faces = F := by
    rw [createMesh, hF]
    rfl
  have hflat : (createMesh cells h).faces.flatten =
      (cornerKeys cells h).map (fun k => keyIndex k (firstOccs (cornerKeys cells h))) := by
    rw [hfaces, hFflat]
    exact b2
  have hverts : (createMesh cells h).verts.length = (firstOccs (cornerKeys cells h)).length := by
    rw [createMesh, h2, h1]
    show (buildEntries (withIdx 0 []) (cornerKeys cells h)).1.length = _
    rw [b1, withIdx_length]
    rfl
  have hidx : ∀ a : ℕ, a < (cornerKeys cells h).length →
      (createMesh cells h).faces.flatten.getD a 0 =
        keyIndex ((cornerKeys cells h).getD a 0) (firstOccs (cornerKeys cells h)) := by
    intro a ha
    rw [hflat, getD_map_lt ha]
  refine ⟨?_, ?_, ?_, hidx⟩
  · rw [hfaces, hFlen]
  · intro f hf
    rw [hfaces] at hf
    refine ⟨hF4 f hf, ?_⟩
    intro i hi
    have himem : i ∈ (createMesh cells h).faces.flatten := by
      rw [hfaces]
      exact List.mem_flatten.mpr ⟨f, hf, hi⟩
    rw [hflat] at himem
    obtain ⟨k, hk, hik⟩ := List.mem_map.mp himem
    rw [← hik, hverts]
    exact keyIndex_lt_length k _ (mem_foldFirst_of_mem k (cornerKeys cells h) [] hk)
  · intro a b ha hb hkey
    rw [hidx a ha, hidx b hb, hkey]

/-- Witness for C6 on the two vertically adjacent cells with half size 1/2: there are
2 faces, and the stream corners 1 (cell 0, position 1) and 4 (cell 1, position 0),
which both denote the shared corner point (1/2, 1/2), receive the same vertex
index. -/
theorem c6_witness :
    (createMesh meshCellsEx (1 / 2)).faces.length = 2 ∧
    (createMesh meshCellsEx (1 / 2)).faces.flatten.getD 1 0 =
      (createMesh meshCellsEx (1 / 2)).faces.flatten.getD 4 0 := by
  have h := c6_geometry_invariants meshCellsEx (1 / 2)
  constructor
  · rw [h.1]
    rfl
  · exact h.2.2.1 1 4 (by decide) (by decide) (by decide)

/-- C5 amended: the maximum-velocity group is produced only when BOTH sources are
present (an absent VELOC.OUT skips the group even though VELFP.OUT was read); when
both are present and well-formed, the reader produces the static scalar group
"Velocity/Maximums" whose value at face i is the channel (VELOC) value when that
value decodes to non-missing, and the floodplain (VELFP) value otherwise (faces
beyond the record count keep the zero-initialised buffer value). -/
theorem c5_amended_theorem (n : ℕ) (fp ch : List (List ℚ))
    (hfp4 : ∀ l ∈ fp, l.length = 4) (hfpn : fp.length ≤ n)
    (hch4 : ∀ l ∈ ch, l.length = 4) (hchn : ch.length ≤ n) :
    parseVELFPVELOCFile n (some fp) (some ch) =
      Except.ok (some (staticGroup "Velocity/Maximums"
        (chApply ch 0 (fpApply fp 0 (List.replicate n (some 0)))))) ∧
    ∀ i : ℕ, i < n →
      (chApply ch 0 (fpApply fp 0 (List.replicate n (some 0))))[i]? =
        some (if i < ch.length ∧ getDoubleQ ((ch.getD i []).getD 3 0) ≠ none
              then getDoubleQ ((ch.getD i []).getD 3 0)
              else if i < fp.length then getDoubleQ ((fp.getD i []).getD 3 0)
              else some 0) := by
  have hfpLen : (fpApply fp 0 (List.replicate n (some 0))).length = n := by
    rw [fpApply_length, List.length_replicate]
  constructor
  · have h1 := velfpGo_eq_fpApply n fp 0 (List.replicate n (some 0)) hfp4 (by omega)
    have h2 := velocGo_eq_chApply n ch 0 (fpApply fp 0 (List.replicate n (some 0))) hch4 (by omega)
    simp only [parseVELFPVELOCFile, h1, h2]
  · intro i hi
    rw [chApply_getElem? ch 0 _ (by omega) i,
      fpApply_getElem? fp 0 _ (by rw [List.length_replicate]; omega) i]
    simp only [Nat.sub_zero, Nat.zero_add]
    by_cases hc : i < ch.length ∧ getDoubleQ ((ch.getD i []).getD 3 0) ≠ none
    · rw [if_pos ⟨Nat.zero_le i, hc.1, hc.2⟩, if_pos hc]
    · rw [if_neg (fun h' => hc ⟨h'.2.1, h'.2.2⟩), if_neg hc]
      by_cases hf : i < fp.length
      · rw [if_pos ⟨Nat.zero_le i, hf⟩, if_pos hf]
      · rw [if_neg (fun h' => hf h'.2), if_neg hf, List.getElem?_replicate, if_pos hi]

/-- Witness for C5 amended at the spec's own examples: floodplain 2.0 with channel
sentinel-zero (missing) keeps 2.0; floodplain 2.0 with channel 3.0 takes 3.0. -/
theorem c5_witness :
    parseVELFPVELOCFile 1 (some [[1, 0, 0, 2]]) (some [[1, 0, 0, 0]]) =
      Except.ok (some (staticGroup "Velocity/Maximums" [some 2])) ∧
    parseVELFPVELOCFile 1 (some [[1, 0, 0, 2]]) (some [[1, 0, 0, 3]]) =
      Except.ok (some (staticGroup "Velocity/Maximums" [some 3])) := by
  constructor
  · have h := (c5_amended_theorem 1 [[1, 0, 0, 2]] [[1, 0, 0, 0]]
      (by decide) (by decide) (by decide) (by decide)).1
    rw [h]
    decide
  · have h := (c5_amended_theorem 1 [[1, 0, 0, 2]] [[1, 0, 0, 3]]
      (by decide) (by decide) (by decide) (by decide)).1
    rw [h]
    decide

/-- The CADPTS parser yields one cell per line. -/
theorem parseCADPTS_ok_length :
    ∀ (lines : List (List ℚ)) (cells : List CellCenter),
      lines.mapM parseCADPTSLine = Except.ok cells → cells.length = lines.length := by
  intro lines
  induction lines with
  | nil =>
    intro cells hc
    simp only [List.mapM_nil] at hc
    cases hc
    rfl
  | cons l ls ih =>
    intro cells hc
    rw [List.mapM_cons] at hc
    cases hl : parseCADPTSLine l with
    | error e => rw [hl] at hc; simp [Bind.bind, Except.bind] at hc
    | ok c =>
      rw [hl] at hc
      cases hm : ls.mapM parseCADPTSLine with
      | error e => rw [hm] at hc; simp [Bind.bind, Except.bind] at hc
      | ok cs =>
        rw [hm] at hc
        simp only [Bind.bind, Except.bind, pure, Except.pure, Except.ok.injEq] at hc
        rw [← hc, List.length_cons, List.length_cons, ih cs hm]

/-- `updateConn` preserves the cell count. -/
theorem updateConn_length (cells : List CellCenter) (ci : ℕ) (l : List ℚ) :
    (updateConn cells ci l).length = cells.length := by
  rw [updateConn]
  cases cells.get? ci with
  | none => rfl
  | some c => simp

/-- A successful FPLAIN parse appends exactly the records' seventh fields to the
elevation list, in record order, and leaves the cell count unchanged. -/
theorem parseFPLAINGo_ok :
    ∀ (lines : List (List ℚ)) (cells : List CellCenter) (elev : List ℚ)
      (out : List CellCenter × List ℚ),
      parseFPLAINGo lines cells elev = Except.ok out →
      out.2 = elev ++ lines.map (fun l => l.getD 6 0) ∧ out.1.length = cells.length := by
  intro lines
  induction lines with
  | nil =>
    intro cells elev out h
    rw [parseFPLAINGo] at h
    cases h
    exact ⟨by simp, rfl⟩
  | cons l ls ih =>
    intro cells elev out h
    rw [parseFPLAINGo] at h
    by_cases h7 : l.length = 7
    · rw [if_pos h7] at h
      obtain ⟨h1, h2⟩ := ih (updateConn cells (toSizeT (l.getD 0 0) - 1) l) (elev ++ [l.getD 6 0]) out h
      refine ⟨?_, ?_⟩
      · rw [h1, List.map_cons, List.append_assoc]
        rfl
      · rw [h2, updateConn_length]
    · rw [if_neg h7] at h
      cases h

/-- Decomposition of a successful `load`: the mandatory geometry pipeline succeeded,
the mesh is the reconstructed one, and the group list is Bed Elevation first, then
whatever the binary reader pushed, then the text groups exactly when the binary
reader failed. -/
theorem load_ok_structure (inp : LoadInput) (r : LoadResult) (hld : load inp = Except.ok r) :
    ∃ (cad recs : List (List ℚ)) (cells cells2 : List CellCenter) (elev : List ℚ) (cs : ℚ)
      (tg : List DatasetGroup),
      inp.cadpts = some cad ∧ inp.fplain = some recs ∧
      parseCADPTSFile inp.cadpts = Except.ok cells ∧
      parseFPLAINFile inp.fplain cells = Except.ok (cells2, elev) ∧
      calcCellSize cells2 = Except.ok cs ∧
      r.mesh = createMesh cells2 (cs / 2) ∧
      r.groups = staticGroup "Bed Elevation" (elev.map some) ::
        (parseHDF5Datasets inp.hdf5 (createMesh cells2 (cs / 2)).faces.length).2 ++ tg ∧
      ((parseHDF5Datasets inp.hdf5 (createMesh cells2 (cs / 2)).faces.length).1 = true →
        parseOUTDatasets inp.timdep inp.depthOut inp.velfp inp.veloc
          (createMesh cells2 (cs / 2)).verts.length
          (createMesh cells2 (cs / 2)).faces.length elev = Except.ok tg) ∧
      ((parseHDF5Datasets inp.hdf5 (createMesh cells2 (cs / 2)).faces.length).1 = false →
        tg = []) := by
  unfold load at hld
  cases hcad : parseCADPTSFile inp.cadpts with
  | error e => rw [hcad] at hld; simp at hld
  | ok cells =>
    rw [hcad] at hld
    dsimp only at hld
    have hcads : ∃ cad, inp.cadpts = some cad := by
      cases hin : inp.cadpts with
      | none => rw [hin, parseCADPTSFile] at hcad; cases hcad
      | some cad => exact ⟨cad, rfl⟩
    cases hfp : parseFPLAINFile inp.fplain cells with
    | error e => rw [hfp] at hld; simp at hld
    | ok pair =>
      obtain ⟨cells2, elev⟩ := pair
      rw [hfp] at hld
      dsimp only at hld
      have hfps : ∃ recs, inp.fplain = some recs := by
        cases hin : inp.fplain with
        | none => rw [hin, parseFPLAINFile] at hfp; cases hfp
        | some recs => exact ⟨recs, rfl⟩
      cases hcs : calcCellSize cells2 with
      | error e => rw [hcs] at hld; simp at hld
      | ok cs =>
        rw [hcs] at hld
        dsimp only at hld
        obtain ⟨cad, hcad'⟩ := hcads
        obtain ⟨recs, hfp'⟩ := hfps
        by_cases herr : (parseHDF5Datasets inp.hdf5 (createMesh cells2 (cs / 2)).faces.length).1
        · rw [if_pos herr] at hld
          cases hout : parseOUTDatasets inp.timdep inp.depthOut inp.velfp inp.veloc
              (createMesh cells2 (cs / 2)).verts.length
              (createMesh cells2 (cs / 2)).faces.length elev with
          | error e => rw [hout] at hld; simp at hld
          | ok tg =>
            rw [hout] at hld
            simp only [Except.ok.injEq] at hld
            refine ⟨cad, recs, cells, cells2, elev, cs, tg, hcad', hfp', rfl, hfp, hcs,
              ?_, ?_, fun _ => hout, fun hfalse => absurd herr (by simp [hfalse])⟩
            · rw [← hld]
            · rw [← hld]
        · rw [if_neg herr] at hld
          simp only [Except.ok.injEq] at hld
          refine ⟨cad, recs, cells, cells2, elev, cs, [], hcad', hfp', rfl, hfp, hcs,
            ?_, ?_, fun htrue => absurd htrue (by simpa using herr), fun _ => rfl⟩
          · rw [← hld]
          · rw [← hld]
            simp

/-- C10: every successful load carries, as the FIRST dataset group of the mesh, a
static scalar face-associated group named "Bed Elevation" whose single time-0 dataset
holds the connectivity records' seventh fields, one per face in record order (which
is cell order for the format's id-sorted files); the face count equals the
cell-center count. -/
theorem c10_bed_elevation_first (inp : LoadInput) (r : LoadResult)
    (cad recs : List (List ℚ)) (hcad : inp.cadpts = some cad) (hfp : inp.fplain = some recs)
    (hld : load inp = Except.ok r) :
    r.groups.head? = some (staticGroup "Bed Elevation"
      ((recs.map (fun l => l.getD 6 0)).map some)) ∧
    r.mesh.faces.length = cad.length := by
  obtain ⟨cad', recs', cells, cells2, elev, cs, tg, hcad', hfp', hpc, hpf, hcs, hm, hg, _, _⟩ :=
    load_ok_structure inp r hld
  rw [hcad] at hcad'
  rw [hfp] at hfp'
  cases hcad'
  cases hfp'
  rw [hcad, parseCADPTSFile] at hpc
  rw [hfp, parseFPLAINFile] at hpf
  obtain ⟨helev, hlen2⟩ := parseFPLAINGo_ok recs cells [] (cells2, elev) hpf
  have helev' : elev = recs.map (fun l => l.getD 6 0) := by simpa using helev
  have hlen2' : cells2.length = cells.length := by simpa using hlen2
  constructor
  · rw [hg, helev']
    rfl
  · rw [hm]
    obtain ⟨_, _, F, hF, hFlen, _, _⟩ := createMesh_foldl (cs / 2) cells2 ⟨[], [], []⟩ rfl
    show (cells2.foldl (addCell (cs / 2)) ⟨[], [], []⟩).faces.length = cad.length
    rw [hF]
    show F.length = cad.length
    rw [hFlen, hlen2', parseCADPTS_ok_length cad cells hpc]

set_option maxHeartbeats 0 in
set_option maxRecDepth 40000 in
/-- Witness for C10 on the two-cell input with no results sources: the load succeeds,
the first (and only) group is Bed Elevation with the two seventh-field values 5 and 7,
and there is one face per cell center. -/
theorem c10_witness :
    load inpGeomOnly = Except.ok loadResultEx ∧
    loadResultEx.groups.head? = some (staticGroup "Bed Elevation" [some 5, some 7]) ∧
    loadResultEx.mesh.faces.length = 2 := by
  have hld : load inpGeomOnly = Except.ok loadResultEx := by decide
  have h := c10_bed_elevation_first inpGeomOnly loadResultEx cadEx fplainEx rfl rfl hld
  refine ⟨hld, ?_, ?_⟩
  · rw [h.1]
    decide
  · rw [h.2]
    rfl

set_option maxHeartbeats 0 in
set_option maxRecDepth 40000 in
/-- C1 counterexample: loading the two-cell input against a store whose sub-group "A"
is complete and whose sub-group "B" lacks its type attribute makes the binary reader
fail (the error flag is true), yet the returned mesh still carries the dataset group
"A" translated from the binary store, after Bed Elevation — the partial binary result
is NOT discarded (the load itself succeeds, with no text files present to
contribute). -/
theorem c1_counterexample :
    (parseHDF5Datasets (some storeEx) 2).1 = true ∧
    Except.map LoadResult.groups (load inpBrokenStore) = Except.ok
      [⟨"Bed Elevation", false, true, [⟨0, [some 5, some 7]⟩]⟩,
       ⟨"A", false, true, [⟨0, [some 4, some 9]⟩]⟩] := by decide

/-- C1 amended: when the binary reader fails partway through the store, the dataset
groups translated from the sub-groups BEFORE the first failing one remain on the mesh
(they are exactly the translations of the longest valid prefix), and the reader
reports failure iff some sub-group is invalid; every successful load's group list is
Bed Elevation, then the binary reader's surviving groups, then the text groups —
where the text groups are empty when the binary reader succeeded. -/
theorem c1_amended_theorem :
    (∀ (nFaces : ℕ) (subs : List (String × HdfSub)),
      (parseHDF5Subs nFaces subs).2 =
        (subs.takeWhile (fun p => (translateSub nFaces p.1 p.2).isSome)).map
          (fun p => (translateSub nFaces p.1 p.2).getD defaultGroup) ∧
      ((parseHDF5Subs nFaces subs).1 = false ↔
        ∀ p ∈ subs, (translateSub nFaces p.1 p.2).isSome)) ∧
    (∀ (inp : LoadInput) (r : LoadResult), load inp = Except.ok r →
      ∃ (bedVals : List FDouble) (tg : List DatasetGroup),
        r.groups = staticGroup "Bed Elevation" bedVals ::
          (parseHDF5Datasets inp.hdf5 r.mesh.faces.length).2 ++ tg ∧
        ((parseHDF5Datasets inp.hdf5 r.mesh.faces.length).1 = false → tg = [])) := by
  constructor
  · intro nFaces subs
    induction subs with
    | nil => exact ⟨rfl, by simp [parseHDF5Subs]⟩
    | cons s rest ih =>
      obtain ⟨nm, sub⟩ := s
      cases ht : translateSub nFaces nm sub with
      | none =>
        have hps : parseHDF5Subs nFaces ((nm, sub) :: rest) = (true, []) := by
          simp only [parseHDF5Subs, ht]
        constructor
        · rw [hps]
          simp [List.takeWhile_cons, ht]
        · rw [hps]
          simp [ht]
      | some g =>
        have hps : parseHDF5Subs nFaces ((nm, sub) :: rest) =
            ((parseHDF5Subs nFaces rest).1, g :: (parseHDF5Subs nFaces rest).2) := by
          simp only [parseHDF5Subs, ht]
        constructor
        · rw [hps]
          simp [List.takeWhile_cons, ht, ih.1]
        · rw [hps]
          simp [ht, ih.2]
  · intro inp r hld
    obtain ⟨cad, recs, cells, cells2, elev, cs, tg, hcad', hfp', hpc, hpf, hcs, hm, hg,
      htx, hfalse⟩ := load_ok_structure inp r hld
    refine ⟨elev.map some, tg, ?_, ?_⟩
    · rw [hg, hm]
    · rw [hm]
      exact hfalse

set_option maxHeartbeats 0 in
set_option maxRecDepth 40000 in
/-- Witness for C1 amended at the broken-store input: the load succeeds with the
predicted result, and the theorem's decomposition applies to it. -/
theorem c1_witness :
    load inpBrokenStore = Except.ok loadResultBroken ∧
    (∃ (bedVals : List FDouble) (tg : List DatasetGroup),
      loadResultBroken.groups = staticGroup "Bed Elevation" bedVals ::
        (parseHDF5Datasets inpBrokenStore.hdf5 loadResultBroken.mesh.faces.length).2 ++ tg ∧
      ((parseHDF5Datasets inpBrokenStore.hdf5 loadResultBroken.mesh.faces.length).1 = false →
        tg = [])) := by
  have hld : load inpBrokenStore = Except.ok loadResultBroken := by decide
  exact ⟨hld, c1_amended_theorem.2 inpBrokenStore loadResultBroken hld⟩

/-- Witness for C2 amended: on the two vertically adjacent cells, the first cell's
north slot holds cell 1, and the computed size is the vertical distance 1. -/
theorem c2_witness : calcCellSize meshCellsEx = Except.ok 1 :=
  (c2_amended_theorem meshCellsEx).trans (by decide)

/-- Witness for C9 at a concrete fuel bound: 1000 iterations still leave the
collision loop spinning. -/
theorem c9_witness : deriveName ["Depth", "Depth_0"] "Depth" 1000 = none :=
  c9_uniqueness_loop_never_terminates 1000

end Flo2D
